import Mathlib

/-!
Shallow embedding of `scripts/sml/dispute_sml_model.py`.

Numeric values are modelled over an ordered field: the decision-stump and
model-manager layers are stated over `ℚ` (all their operations are exact
field arithmetic and comparisons), while the boosting layer, which applies
the exponential function inside its softmax, is stated over `ℝ`.
-/

namespace DisputeSml

variable {α : Type*} [LinearOrderedField α]

/-- Row-major matrix: a list of rows. -/
abbrev Mat (α : Type*) := List (List α)

/-- Entry `j` of a row, defaulting to 0 out of range (numpy indexing is
always in range in the source; the default is never hit on well-formed data). -/
def entry (row : List α) (j : ℕ) : α := row.getD j 0

/-- Column `j` of a matrix (`X[:, j]`). -/
def column (X : Mat α) (j : ℕ) : List α := X.map (fun row => entry row j)

/-- `np.unique`: the sorted list of distinct values of a vector. -/
def uniqueSorted (l : List α) : List α :=
  (l.insertionSort (· ≤ ·)).dedup

/-- Number of rows satisfying `value <= thresh` (`left_mask.sum()`). -/
def leftCount (vals : List α) (thresh : α) : ℕ :=
  (vals.filter (fun v => v ≤ thresh)).length

/-- Number of rows satisfying `value > thresh` (`right_mask.sum()`). -/
def rightCount (vals : List α) (thresh : α) : ℕ :=
  (vals.filter (fun v => ¬ v ≤ thresh)).length

/-- Mean of the residuals on the rows where the mask holds
(`residuals[mask].mean()`); numpy's empty mean is never taken on the
accepted path, and we default it to 0. -/
def maskedMean (vals : List α) (residuals : List α) (p : α → Prop) [DecidablePred p] : α :=
  let sel := ((vals.zip residuals).filter (fun vr => p vr.1)).map (fun vr => vr.2)
  sel.sum / sel.length

/-- `DecisionStump`: fitted parameters of the weak learner. -/
structure DecisionStump (α : Type*) where
  feature_idx : ℕ
  threshold : α
  left_value : α
  right_value : α
deriving Repr, DecidableEq

/-- The zero-initialized stump produced by `DecisionStump.__init__`. -/
def DecisionStump.init : DecisionStump α := ⟨0, 0, 0, 0⟩

/-- The per-candidate prediction `np.where(left_mask, left_mean, right_mean)`. -/
def candPred (vals : List α) (residuals : List α) (thresh : α) : List α :=
  vals.map (fun v =>
    if v ≤ thresh then maskedMean vals residuals (fun w => w ≤ thresh)
    else maskedMean vals residuals (fun w => ¬ w ≤ thresh))

/-- The candidate's score `gain = -np.sum((residuals - pred) ** 2)`. -/
def candGain (vals : List α) (residuals : List α) (thresh : α) : α :=
  -(((residuals.zip (candPred vals residuals thresh)).map
      (fun rp => (rp.1 - rp.2) ^ 2)).sum)

/-- The stump a candidate `(feat_idx, thresh)` would store. -/
def candStump (X : Mat α) (residuals : List α) (featIdx : ℕ) (thresh : α) :
    DecisionStump α :=
  let vals := column X featIdx
  ⟨featIdx, thresh,
    maskedMean vals residuals (fun v => v ≤ thresh),
    maskedMean vals residuals (fun v => ¬ v ≤ thresh)⟩

/-- `n_features = X.shape[1]`. -/
def nFeatures (X : Mat α) : ℕ := (X.headD []).length

/-- The candidate `(feature, threshold)` pairs in the order the two nested
loops of `DecisionStump.fit` visit them: features ascending, and for each
feature the distinct values of its column in ascending order. -/
def allCandidates (X : Mat α) : List (ℕ × α) :=
  (List.range (nFeatures X)).flatMap
    (fun featIdx => (uniqueSorted (column X featIdx)).map (fun t => (featIdx, t)))

/-- Whether a candidate passes the `< 2` partition-size guard. -/
def accepted (X : Mat α) (c : ℕ × α) : Prop :=
  2 ≤ leftCount (column X c.1) c.2 ∧ 2 ≤ rightCount (column X c.1) c.2

instance (X : Mat α) (c : ℕ × α) : Decidable (accepted X c) := by
  unfold accepted; infer_instance

/-- One iteration of the candidate loop: skip a rejected candidate, otherwise
replace the incumbent best exactly when the new gain is strictly greater
(`if gain > best_gain`; the initial `best_gain = -np.inf` is modelled by the
`none` accumulator, which any accepted candidate replaces). -/
def stepCand (X : Mat α) (residuals : List α)
    (acc : Option (α × DecisionStump α)) (c : ℕ × α) :
    Option (α × DecisionStump α) :=
  if accepted X c then
    let gain := candGain (column X c.1) residuals c.2
    match acc with
    | none => some (gain, candStump X residuals c.1 c.2)
    | some (g, s) => if gain > g then some (gain, candStump X residuals c.1 c.2) else some (g, s)
  else acc

/-- `DecisionStump.fit`: fold the candidate loop; if no candidate was ever
accepted the stump keeps its zero-initialized fields. -/
def DecisionStump.fit (X : Mat α) (residuals : List α) : DecisionStump α :=
  match (allCandidates X).foldl (stepCand X residuals) none with
  | none => DecisionStump.init
  | some (_, s) => s

/-- `DecisionStump.predict`. -/
def DecisionStump.predict (s : DecisionStump α) (X : Mat α) : List α :=
  X.map (fun row => if entry row s.feature_idx ≤ s.threshold then s.left_value else s.right_value)

/-! ### Analysis helpers for the candidate fold -/

/-- Evaluate one candidate: `none` when the partition-size guard rejects it,
otherwise its gain and the stump it would store. -/
def evalCand (X : Mat α) (residuals : List α) (c : ℕ × α) :
    Option (α × DecisionStump α) :=
  if accepted X c then
    some (candGain (column X c.1) residuals c.2, candStump X residuals c.1 c.2)
  else none

/-- The candidates that pass the guard, in visit order. -/
def acceptedList (X : Mat α) : List (ℕ × α) :=
  (allCandidates X).filter (fun c => decide (accepted X c))

/-- The accepted candidates with their gains, in visit order. -/
def scoredCandidates (X : Mat α) (residuals : List α) : List (ℕ × α × α) :=
  (acceptedList X).map (fun c => (c.1, c.2, candGain (column X c.1) residuals c.2))

/-- The strict-replacement step on already-evaluated candidates. -/
def pickBetter (acc : Option (α × DecisionStump α)) (gs : α × DecisionStump α) :
    Option (α × DecisionStump α) :=
  match acc with
  | none => some gs
  | some (g, s) => if gs.1 > g then some gs else some (g, s)

/-- Leftmost maximiser of `val` over `a :: l` (replacement only on a
strictly greater value). -/
def firstMaxOf {β : Type*} (val : β → α) (a : β) : List β → β
  | [] => a
  | x :: xs => firstMaxOf val (if val x > val a then x else a) xs

/-- Strict lexicographic order on (feature index, threshold) pairs. -/
def lexLT (p q : ℕ × α) : Prop := p.1 < q.1 ∨ (p.1 = q.1 ∧ p.2 < q.2)

/-- Lexicographic order on (feature index, threshold) pairs. -/
def lexLE (p q : ℕ × α) : Prop := p.1 < q.1 ∨ (p.1 = q.1 ∧ p.2 ≤ q.2)

/-! ### `SimpleGradientBoosting` (over `ℝ`: its softmax applies `exp`) -/

/-- One-hot encoding of the labels: row `i` has a 1 in column `y i` when
`0 <= y i < n_classes` (labels are naturals here, so only the upper bound
binds) and is a zero row otherwise. -/
def oneHot (nClasses : ℕ) (y : List ℕ) : Mat α :=
  y.map (fun label => (List.range nClasses).map (fun c => if label = c then 1 else 0))

/-- Column means `M.mean(axis=0)` of the first `nClasses` columns. -/
def colMeans (M : Mat α) (nClasses : ℕ) : List α :=
  (List.range nClasses).map (fun c => (column M c).sum / M.length)

/-- `np.max(x, axis=1)` of one row (rows are nonempty wherever the source
takes this maximum). -/
def rowMax : List α → α
  | [] => 0
  | x :: xs => xs.foldl max x

/-- `_softmax` on one row: subtract the row maximum, exponentiate,
normalize by the row sum. -/
noncomputable def softmaxRow (row : List ℝ) : List ℝ :=
  let exps := row.map (fun v => Real.exp (v - rowMax row))
  exps.map (fun e => e / exps.sum)

/-- `_softmax`: row-wise numerically-stable softmax. -/
noncomputable def softmax (M : Mat ℝ) : Mat ℝ := M.map softmaxRow

/-- `predictions[:, c] += learning_rate * v`. -/
def updateScores (P : Mat α) (c : ℕ) (lr : α) (v : List α) : Mat α :=
  List.zipWith (fun row u => row.set c (entry row c + lr * u)) P v

/-- `residuals = y_onehot[:, c] - _softmax(predictions)[:, c]`: the softmax
is recomputed from the matrix `P` as it stands when class `c` is processed. -/
noncomputable def residualFor (oneHotM P : Mat ℝ) (c : ℕ) : List ℝ :=
  List.zipWith (fun a b => a - b) (column oneHotM c) (column (softmax P) c)

/-- Raw-score matrix after the first `c` classes of a round that started
from matrix `P` have been fit and applied. -/
noncomputable def partialScores (X oneHotM : Mat ℝ) (lr : ℝ) (P : Mat ℝ) : ℕ → Mat ℝ
  | 0 => P
  | c + 1 =>
    let Pc := partialScores X oneHotM lr P c
    updateScores Pc c lr ((DecisionStump.fit X (residualFor oneHotM Pc c)).predict X)

/-- The stumps one round fits, class by class, starting from matrix `P`. -/
noncomputable def roundStumps (X oneHotM : Mat ℝ) (lr : ℝ) (P : Mat ℝ) (nClasses : ℕ) :
    List (DecisionStump ℝ) :=
  (List.range nClasses).map
    (fun c => DecisionStump.fit X (residualFor oneHotM (partialScores X oneHotM lr P c) c))

/-- Raw-score matrix at the start of round `r`. -/
noncomputable def scoresBeforeRound (X oneHotM : Mat ℝ) (lr : ℝ) (nClasses : ℕ) (P0 : Mat ℝ) :
    ℕ → Mat ℝ
  | 0 => P0
  | r + 1 => partialScores X oneHotM lr (scoresBeforeRound X oneHotM lr nClasses P0 r) nClasses

/-- Fitted state of `SimpleGradientBoosting`. -/
structure SimpleGradientBoosting where
  n_estimators : ℕ
  learning_rate : ℝ
  n_classes : ℕ
  estimators : List (List (DecisionStump ℝ))
  initial_predictions : List ℝ

/-- The body of the inner (per-class) loop of `SimpleGradientBoosting.fit`:
compute the residuals from the current score matrix, fit a stump to them,
append it to the round, and update the class's score column. -/
noncomputable def fitClassStep (X oneHotM : Mat ℝ) (lr : ℝ)
    (a : List (DecisionStump ℝ) × Mat ℝ) (c : ℕ) :
    List (DecisionStump ℝ) × Mat ℝ :=
  let residuals := residualFor oneHotM a.2 c
  let stump := DecisionStump.fit X residuals
  (a.1 ++ [stump], updateScores a.2 c lr (stump.predict X))

/-- The body of the outer (per-round) loop of `SimpleGradientBoosting.fit`. -/
noncomputable def fitRoundStep (X oneHotM : Mat ℝ) (lr : ℝ) (nClasses : ℕ)
    (acc : List (List (DecisionStump ℝ)) × Mat ℝ) :
    List (List (DecisionStump ℝ)) × Mat ℝ :=
  let inner := (List.range nClasses).foldl (fitClassStep X oneHotM lr) ([], acc.2)
  (acc.1 ++ [inner.1], inner.2)

/-- `SimpleGradientBoosting.fit` (the constructor arguments are passed along,
matching `SimpleGradientBoosting(n_estimators, learning_rate, n_classes)`
followed by `.fit(X, y)`). -/
noncomputable def SimpleGradientBoosting.fit (ne : ℕ) (lr : ℝ) (nc : ℕ)
    (X : Mat ℝ) (y : List ℕ) : SimpleGradientBoosting :=
  let oneHotM : Mat ℝ := oneHot nc y
  let init := colMeans oneHotM nc
  let P0 : Mat ℝ := X.map (fun _ => init)
  let res := (List.range ne).foldl (fun acc _ => fitRoundStep X oneHotM lr nc acc) ([], P0)
  ⟨ne, lr, nc, res.1, init⟩

/-- `predict_proba`: rebuild the raw scores from the stored initial vector
and all stored rounds, then softmax. -/
noncomputable def SimpleGradientBoosting.predict_proba (m : SimpleGradientBoosting)
    (X : Mat ℝ) : Mat ℝ :=
  let P0 : Mat ℝ := X.map (fun _ => m.initial_predictions)
  let P := m.estimators.foldl
    (fun Q round =>
      round.enum.foldl (fun R cs => updateScores R cs.1 m.learning_rate (cs.2.predict X)) Q)
    P0
  softmax P

/-- `np.argmax` over one row: index of the leftmost maximal entry. -/
noncomputable def argmaxIdx (row : List ℝ) : ℕ :=
  (firstMaxOf Prod.snd (0, row.headD 0) (row.enum.drop 1)).1

/-- `predict`: row-wise argmax of `predict_proba`. -/
noncomputable def SimpleGradientBoosting.predict (m : SimpleGradientBoosting)
    (X : Mat ℝ) : List ℕ :=
  (m.predict_proba X).map argmaxIdx

/-- Specification-side predicate: `k` is the lowest index attaining the
maximum of `row`. -/
def IsFirstArgmax (row : List ℝ) (k : ℕ) : Prop :=
  k < row.length ∧ (∀ j < row.length, entry row j ≤ entry row k) ∧
    ∀ j < k, entry row j < entry row k

/-! ### Case records and feature vectors -/

/-- `SmlTrainingData` (mirrors the on-chain record; the numeric fields are
naturals, matching the documented ranges of the source). -/
structure SmlTrainingData where
  case_id : String
  job_category : ℕ
  dispute_category : ℕ
  amount_tier : ℕ
  evidence_quality_a : ℕ
  evidence_quality_b : ℕ
  response_time_a : ℕ
  response_time_b : ℕ
  prior_disputes_a : ℕ
  prior_disputes_b : ℕ
  votes : List Bool
  confidences : List ℕ
  final_verdict : ℕ
  auto_resolved : Bool
  consensus_strength : ℕ
deriving DecidableEq

/-- `SmlTrainingData.to_feature_vector` over exact rationals. -/
def SmlTrainingData.to_feature_vector (d : SmlTrainingData) : List ℚ :=
  [ (d.job_category : ℚ) / 100,
    (d.dispute_category : ℚ) / 7,
    (d.amount_tier : ℚ) / 4,
    (d.evidence_quality_a : ℚ) / 100,
    (d.evidence_quality_b : ℚ) / 100,
    (min d.response_time_a 168 : ℚ) / 168,
    (min d.response_time_b 168 : ℚ) / 168,
    (min d.prior_disputes_a 10 : ℚ) / 10,
    (min d.prior_disputes_b 10 : ℚ) / 10,
    ((d.evidence_quality_a : ℚ) - (d.evidence_quality_b : ℚ)) / 100,
    if d.response_time_a + d.response_time_b > 0 then
      ((d.response_time_b : ℚ) - (d.response_time_a : ℚ)) / 168
    else 0,
    ((d.prior_disputes_b : ℚ) - (d.prior_disputes_a : ℚ)) / 10 ]

/-- `SmlTrainingData.to_label`. -/
def SmlTrainingData.to_label (d : SmlTrainingData) : ℕ := d.final_verdict

/-- Modelled from the spec (section 3, "Feature Vector"): the twelve
components as the spec lists them, with component 11 written with the
spec's "or 0 if both response times are 0" side condition. -/
def specFeatureVector (d : SmlTrainingData) : List ℚ :=
  [ (d.job_category : ℚ) / 100,
    (d.dispute_category : ℚ) / 7,
    (d.amount_tier : ℚ) / 4,
    (d.evidence_quality_a : ℚ) / 100,
    (d.evidence_quality_b : ℚ) / 100,
    (min d.response_time_a 168 : ℚ) / 168,
    (min d.response_time_b 168 : ℚ) / 168,
    (min d.prior_disputes_a 10 : ℚ) / 10,
    (min d.prior_disputes_b 10 : ℚ) / 10,
    ((d.evidence_quality_a : ℚ) - (d.evidence_quality_b : ℚ)) / 100,
    if d.response_time_a = 0 ∧ d.response_time_b = 0 then 0
    else ((d.response_time_b : ℚ) - (d.response_time_a : ℚ)) / 168,
    ((d.prior_disputes_b : ℚ) - (d.prior_disputes_a : ℚ)) / 10 ]

/-- `DisputeCategory.NON_DELIVERY`. -/
def DisputeCategory.NON_DELIVERY : ℕ := 0

/-- `DisputeCategory.QUALITY_ISSUE`. -/
def DisputeCategory.QUALITY_ISSUE : ℕ := 1

/-- `JuryVerdict.PENDING`. -/
def JuryVerdict.PENDING : ℕ := 0

/-! ### Rationale generator -/

/-- Evidence-quality rule of `_generate_reasoning`. -/
def evidenceNotes (case : SmlTrainingData) : List String :=
  if case.evidence_quality_a > case.evidence_quality_b + 20 then
    ["Party A has stronger evidence"]
  else if case.evidence_quality_b > case.evidence_quality_a + 20 then
    ["Party B has stronger evidence"]
  else []

/-- Response-time rule of `_generate_reasoning` (Python divides with `/`,
so the comparison is against the exact half, modelled over `ℚ`). -/
def responseNotes (case : SmlTrainingData) : List String :=
  if (case.response_time_a : ℚ) < (case.response_time_b : ℚ) / 2 then
    ["Party A responded more quickly"]
  else if (case.response_time_b : ℚ) < (case.response_time_a : ℚ) / 2 then
    ["Party B responded more quickly"]
  else []

/-- Prior-disputes rule of `_generate_reasoning`. -/
def priorDisputeNotes (case : SmlTrainingData) : List String :=
  if case.prior_disputes_a > case.prior_disputes_b + 2 then
    ["Party A has more prior disputes (negative signal)"]
  else if case.prior_disputes_b > case.prior_disputes_a + 2 then
    ["Party B has more prior disputes (negative signal)"]
  else []

/-- Dispute-category rule of `_generate_reasoning`. -/
def categoryNotes (case : SmlTrainingData) : List String :=
  if case.dispute_category = DisputeCategory.NON_DELIVERY then
    ["Non-delivery cases typically favor claimant if evidence is clear"]
  else if case.dispute_category = DisputeCategory.QUALITY_ISSUE then
    ["Quality disputes often result in partial resolutions"]
  else []

/-- The fallback sentence of `_generate_reasoning`. -/
def fallbackReason : String :=
  "Case features are balanced; prediction based on similar historical cases"

/-- `_generate_reasoning`: the four rules fire in order, the notes are
joined with "; ", and the fallback is used when no rule fired. -/
def generate_reasoning (case : SmlTrainingData) : String :=
  let reasons :=
    evidenceNotes case ++ responseNotes case ++ priorDisputeNotes case ++ categoryNotes case
  let reasons := if reasons = [] then [fallbackReason] else reasons
  String.intercalate "; " reasons

/-! ### Model manager -/

/-- In-memory state of `DisputeSmlModel` (the configured path is not part
of the numeric state; persistence is modelled by an explicit store value). -/
structure DisputeSmlModel where
  model : Option SimpleGradientBoosting
  version : ℕ
  training_samples : ℕ
  accuracy : ℝ

/-- State of a fresh `DisputeSmlModel()`. -/
def DisputeSmlModel.initState : DisputeSmlModel := ⟨none, 1, 0, 0⟩

/-- Structured result of `train`. -/
inductive TrainResult where
  | error (msg : String)
  | success (version : ℕ) (training_samples : ℕ) (test_samples : ℕ) (accuracy : ℝ)

/-- `TrainResult.error` discriminator. -/
def TrainResult.isError : TrainResult → Bool
  | .error _ => true
  | .success _ _ _ _ => false

/-- The `test_samples` field of a successful result. -/
def TrainResult.testSamples : TrainResult → Option ℕ
  | .error _ => none
  | .success _ _ t _ => some t

/-- The `training_samples` field of a successful result. -/
def TrainResult.trainingSamples : TrainResult → Option ℕ
  | .error _ => none
  | .success _ t _ _ => some t

/-- Python `int()` on a rational: truncation toward zero. -/
def pyInt (q : ℚ) : ℤ := if 0 ≤ q then ⌊q⌋ else ⌈q⌉

/-- Python `round()` to an integer: round half to even. -/
noncomputable def pyRoundInt (x : ℝ) : ℤ :=
  if Int.fract x < 1 / 2 then ⌊x⌋
  else if 1 / 2 < Int.fract x then ⌊x⌋ + 1
  else if Even ⌊x⌋ then ⌊x⌋ else ⌊x⌋ + 1

/-- Python `round(x, 2)`. -/
noncomputable def pyRound2 (x : ℝ) : ℝ := (pyRoundInt (x * 100) : ℝ) / 100

/-- Python `round(x, 1)`. -/
noncomputable def pyRound1 (x : ℝ) : ℝ := (pyRoundInt (x * 10) : ℝ) / 10

/-- Feature-vector/label pairs surviving the label filter
`(y >= 0) & (y < 6)` (labels are naturals, so only `y < 6` binds). -/
def validPairs (training_data : List SmlTrainingData) : List (List ℚ × ℕ) :=
  ((training_data.map SmlTrainingData.to_feature_vector).zip
      (training_data.map SmlTrainingData.to_label)).filter (fun p => p.2 < 6)

/-- Cast a rational feature matrix to the reals the ensemble works over. -/
def toRealMat (X : List (List ℚ)) : Mat ℝ := X.map (fun r => r.map (fun q => (q : ℝ)))

/-- `DisputeSmlModel.train`. The caller-invisible randomness of
`np.random.permutation` is an explicit argument `perm` (the spec calls for
an injectable random source); the returned boolean records whether `save`
was invoked. -/
noncomputable def DisputeSmlModel.train (st : DisputeSmlModel)
    (training_data : List SmlTrainingData) (test_split : ℚ) (perm : List ℕ) :
    TrainResult × DisputeSmlModel × Bool :=
  if training_data.length < 10 then
    (.error "Need at least 10 training samples", st, false)
  else
    let pairs := validPairs training_data
    if pairs.length < 10 then
      (.error "Not enough valid samples after filtering", st, false)
    else
      let X := pairs.map Prod.fst
      let y := pairs.map Prod.snd
      let n_test := (pyInt ((X.length : ℚ) * test_split)).toNat
      let test_idx := perm.take n_test
      let train_idx := perm.drop n_test
      let X_train := train_idx.map (fun i => X.getD i [])
      let X_test := test_idx.map (fun i => X.getD i [])
      let y_train := train_idx.map (fun i => y.getD i 0)
      let y_test := test_idx.map (fun i => y.getD i 0)
      let model := SimpleGradientBoosting.fit 50 (1 / 10) 6 (toRealMat X_train) y_train
      let y_pred := model.predict (toRealMat X_test)
      let accuracy : ℝ :=
        (((y_pred.zip y_test).filter (fun p => p.1 == p.2)).length : ℝ) / y_test.length
      let st' : DisputeSmlModel := ⟨some model, st.version + 1, X_train.length, accuracy⟩
      (.success st'.version st'.training_samples X_test.length (pyRound2 (accuracy * 100)),
        st', true)

/-- The pickled artifact `save` writes and `load` reads. -/
structure SavedArtifact where
  model : Option SimpleGradientBoosting
  version : ℕ
  training_samples : ℕ
  accuracy : ℝ

/-- `DisputeSmlModel.load`: a missing artifact leaves the state unchanged. -/
def DisputeSmlModel.load (st : DisputeSmlModel) (store : Option SavedArtifact) :
    DisputeSmlModel :=
  match store with
  | none => st
  | some a => ⟨a.model, a.version, a.training_samples, a.accuracy⟩

/-- `JuryVerdict(v).name`. -/
def verdictName (v : ℕ) : String :=
  if v = 0 then "PENDING" else if v = 1 then "PARTY_A_WINS"
  else if v = 2 then "PARTY_B_WINS" else if v = 3 then "SPLIT"
  else if v = 4 then "PARTIAL_A" else if v = 5 then "PARTIAL_B" else "UNKNOWN"

/-- Result of `DisputeSmlModel.predict`: either the degraded default
returned when no model is available, or a full prediction. -/
inductive PredictResult where
  | untrained (verdict : ℕ) (confidence : ℕ) (reasoning : String)
  | prediction (verdict : ℕ) (verdict_name : String) (confidence : ℕ)
      (probabilities : List ℝ) (reasoning : String) (model_version : ℕ)
      (model_accuracy : ℝ)

/-- The `reasoning` field of either result shape. -/
def PredictResult.reasoningOf : PredictResult → String
  | .untrained _ _ r => r
  | .prediction _ _ _ _ r _ _ => r

/-- `DisputeSmlModel.predict` (the persisted store is explicit, as in
`train`). -/
noncomputable def DisputeSmlModel.predict (st : DisputeSmlModel)
    (store : Option SavedArtifact) (case_data : SmlTrainingData) :
    PredictResult × DisputeSmlModel :=
  let st1 := match st.model with
    | none => st.load store
    | some _ => st
  match st1.model with
  | none => (.untrained JuryVerdict.PENDING 0 "Model not trained yet", st1)
  | some m =>
    let X : Mat ℝ := toRealMat [case_data.to_feature_vector]
    let proba := (m.predict_proba X).headD []
    let predicted_class := argmaxIdx proba
    let confidence := (⌊entry proba predicted_class * 100⌋).toNat
    (.prediction predicted_class (verdictName predicted_class) confidence
      (proba.map (fun p => pyRound1 (p * 100)))
      (generate_reasoning case_data) st1.version (pyRound1 (st1.accuracy * 100)), st1)

/-! ### Concrete inputs used by witnesses and counterexamples -/

/-- Compact builder for a concrete case record. -/
def mkCase (job cat tier eqa eqb rta rtb pda pdb verdict : ℕ) : SmlTrainingData :=
  ⟨"case", job, cat, tier, eqa, eqb, rta, rtb, pda, pdb, [], [], verdict, false, 50⟩

/-- Ten records with valid labels. -/
def tenRecords : List SmlTrainingData :=
  (List.range 10).map (fun i => mkCase 1 2 1 50 50 24 24 0 0 (i % 6))

/-- A 4x1 feature matrix whose only feature admits exactly one accepted
threshold. -/
def cexX : Mat ℝ := [[0], [0], [1], [1]]

/-- Labels for the two-class boosting counterexample. -/
def cexY : List ℕ := [0, 0, 1, 1]

/-- A six-class ensemble with no fitted rounds, for concrete witnesses. -/
noncomputable def witnessModel : SimpleGradientBoosting :=
  ⟨0, 1 / 10, 6, [], [0, 0, 0, 0, 0, 0]⟩

/-! ## Theorems -/

/-- A fold of the candidate loop over rejected candidates keeps its
accumulator. -/
theorem foldl_stepCand_of_rejected (X : Mat α) (residuals : List α)
    (L : List (ℕ × α)) (acc : Option (α × DecisionStump α))
    (h : ∀ c ∈ L, ¬ accepted X c) :
    L.foldl (stepCand X residuals) acc = acc := by
  induction L generalizing acc with
  | nil => rfl
  | cons x xs ih =>
    have hx : ¬ accepted X x := h x (by simp)
    simp only [List.foldl_cons]
    rw [show stepCand X residuals acc x = acc by simp [stepCand, hx]]
    exact ih acc (fun c hc => h c (by simp [hc]))

/-- **C5.** If every candidate `(feature, threshold)` pair is rejected by the
`< 2`-rows partition guard, `DecisionStump.fit` leaves the stump at its
zero-initialized default (feature 0, threshold 0, both branch values 0), and
the resulting `predict` returns the all-zero vector on any input, so the
stump contributes nothing to the ensemble score. -/
theorem fit_all_rejected_default (X : Mat α) (residuals : List α)
    (h : ∀ c ∈ allCandidates X,
      leftCount (column X c.1) c.2 < 2 ∨ rightCount (column X c.1) c.2 < 2) :
    DecisionStump.fit X residuals = DecisionStump.init ∧
      ∀ X' : Mat α, (DecisionStump.fit X residuals).predict X' =
        X'.map (fun _ => 0) := by
  have hrej : ∀ c ∈ allCandidates X, ¬ accepted X c := by
    intro c hc ha
    rcases ha with ⟨hl, hr⟩
    rcases h c hc with h1 | h1 <;> omega
  have hfit : DecisionStump.fit X residuals = DecisionStump.init := by
    unfold DecisionStump.fit
    rw [foldl_stepCand_of_rejected X residuals _ none hrej]
  refine ⟨hfit, fun X' => ?_⟩
  rw [hfit]
  unfold DecisionStump.predict DecisionStump.init
  simp

/-- Witness for C5: a constant single feature admits no accepted split, the
fitted stump is the zero default, and prediction is identically zero. -/
theorem fit_all_rejected_default_witness :
    (∀ c ∈ allCandidates ([[5], [5], [5]] : Mat ℚ),
      leftCount (column ([[5], [5], [5]] : Mat ℚ) c.1) c.2 < 2 ∨
        rightCount (column ([[5], [5], [5]] : Mat ℚ) c.1) c.2 < 2) ∧
    DecisionStump.fit ([[5], [5], [5]] : Mat ℚ) [1, 2, 3] = DecisionStump.init ∧
    (DecisionStump.fit ([[5], [5], [5]] : Mat ℚ) [1, 2, 3]).predict [[3], [7]] =
      [0, 0] := by
  refine ⟨by decide, (fit_all_rejected_default _ [1, 2, 3] (by decide)).1, ?_⟩
  have h := (fit_all_rejected_default ([[5], [5], [5]] : Mat ℚ) [1, 2, 3]
    (by decide)).2 [[3], [7]]
  simpa using h

/-- **C6.** The feature vector is a pure function of the record with exactly
12 components, equal to the spec's formulas: response times capped at 168
hours, prior-dispute counts capped at 10, and component 11 equal to
`(response_time_b - response_time_a) / 168` except 0 when both response
times are 0. -/
theorem to_feature_vector_matches_spec (d : SmlTrainingData) :
    d.to_feature_vector = specFeatureVector d ∧ d.to_feature_vector.length = 12 := by
  constructor
  · unfold SmlTrainingData.to_feature_vector specFeatureVector
    by_cases h : d.response_time_a = 0 ∧ d.response_time_b = 0
    · simp [h.1, h.2]
    · have hpos : d.response_time_a + d.response_time_b > 0 := by omega
      simp [h, hpos]
  · rfl

/-- **C3.** With fewer than 10 records, or fewer than 10 rows surviving the
label filter, `train` returns one of the two structured error results (it is
a total function of its inputs, so no exception is raised), leaves the
manager state unchanged, and does not invoke `save`. -/
theorem train_insufficient_data (st : DisputeSmlModel)
    (data : List SmlTrainingData) (t : ℚ) (perm : List ℕ)
    (h : data.length < 10 ∨ (validPairs data).length < 10) :
    ((st.train data t perm).1 = TrainResult.error "Need at least 10 training samples" ∨
      (st.train data t perm).1 = TrainResult.error "Not enough valid samples after filtering") ∧
    (st.train data t perm).2.1 = st ∧ (st.train data t perm).2.2 = false := by
  unfold DisputeSmlModel.train
  by_cases h1 : data.length < 10
  · simp [h1]
  · have h2 : (validPairs data).length < 10 := by tauto
    simp [h1, h2]

/-- Witness for C3: training a fresh manager on an empty record list. -/
theorem train_insufficient_data_witness :
    (([] : List SmlTrainingData).length < 10 ∨ (validPairs []).length < 10) ∧
    (((DisputeSmlModel.initState.train [] (1 / 5) []).1 =
        TrainResult.error "Need at least 10 training samples" ∨
      (DisputeSmlModel.initState.train [] (1 / 5) []).1 =
        TrainResult.error "Not enough valid samples after filtering") ∧
    (DisputeSmlModel.initState.train [] (1 / 5) []).2.1 = DisputeSmlModel.initState ∧
    (DisputeSmlModel.initState.train [] (1 / 5) []).2.2 = false) :=
  ⟨Or.inl (by decide),
    train_insufficient_data DisputeSmlModel.initState [] (1 / 5) [] (Or.inl (by decide))⟩

/-- **C10.** Whenever `train` returns an error result, the in-memory state
(held model, version counter, training-sample count, accuracy) is returned
unchanged and `save` is not invoked. -/
theorem train_error_preserves_state (st : DisputeSmlModel)
    (data : List SmlTrainingData) (t : ℚ) (perm : List ℕ)
    (h : (st.train data t perm).1.isError = true) :
    (st.train data t perm).2.1 = st ∧ (st.train data t perm).2.2 = false := by
  by_cases h1 : data.length < 10
  · unfold DisputeSmlModel.train
    simp [h1]
  · by_cases h2 : (validPairs data).length < 10
    · unfold DisputeSmlModel.train
      simp [h1, h2]
    · exfalso
      revert h
      unfold DisputeSmlModel.train
      simp [h1, h2, TrainResult.isError]

/-- Witness for C10: the empty-input error case leaves a fresh manager
untouched. -/
theorem train_error_preserves_state_witness :
    (DisputeSmlModel.initState.train [] (1 / 5) []).1.isError = true ∧
    ((DisputeSmlModel.initState.train [] (1 / 5) []).2.1 = DisputeSmlModel.initState ∧
      (DisputeSmlModel.initState.train [] (1 / 5) []).2.2 = false) :=
  ⟨rfl, train_error_preserves_state DisputeSmlModel.initState [] (1 / 5) [] rfl⟩

/-- The label filter cannot increase the row count. -/
theorem validPairs_length_le (data : List SmlTrainingData) :
    (validPairs data).length ≤ data.length := by
  unfold validPairs
  calc (((data.map SmlTrainingData.to_feature_vector).zip
          (data.map SmlTrainingData.to_label)).filter (fun p => p.2 < 6)).length
      ≤ ((data.map SmlTrainingData.to_feature_vector).zip
          (data.map SmlTrainingData.to_label)).length := List.length_filter_le _ _
    _ ≤ data.length := by simp [List.length_zip]

/-- `train`'s split sizes on the success path: the test set has
`int(n * t)` rows and the training set the remaining rows. -/
theorem train_split_sizes (st : DisputeSmlModel) (data : List SmlTrainingData)
    (t : ℚ) (perm : List ℕ)
    (h10 : 10 ≤ (validPairs data).length) (ht0 : 0 ≤ t) (ht1 : t ≤ 1)
    (hperm : perm.length = (validPairs data).length) :
    (st.train data t perm).1.testSamples =
      some (⌊((validPairs data).length : ℚ) * t⌋.toNat) ∧
    (st.train data t perm).1.trainingSamples =
      some ((validPairs data).length - ⌊((validPairs data).length : ℚ) * t⌋.toNat) := by
  have hn1 : ¬ data.length < 10 := by
    have := validPairs_length_le data
    omega
  have hn2 : ¬ (validPairs data).length < 10 := by omega
  have hprod : (0 : ℚ) ≤ ((validPairs data).length : ℚ) * t :=
    mul_nonneg (by positivity) ht0
  have hfloorle : ⌊((validPairs data).length : ℚ) * t⌋.toNat ≤ perm.length := by
    have hle : ((validPairs data).length : ℚ) * t ≤ ((validPairs data).length : ℚ) := by
      nlinarith
    have := Int.floor_le_floor (α := ℚ) hle
    rw [Int.floor_natCast] at this
    omega
  unfold DisputeSmlModel.train
  rw [if_neg hn1, if_neg hn2]
  simp only [pyInt, if_pos hprod, TrainResult.testSamples, TrainResult.trainingSamples,
    List.length_map, List.length_take, List.length_drop]
  constructor
  · congr 1
    omega
  · congr 1
    omega

/-- **C2 counterexample.** With exactly 10 valid rows and test fraction
3/20, `train` holds out `int(10 * (3/20)) = 1` row, while the claimed
`round(10 * (3/20))` is 2. -/
theorem train_test_size_cex :
    (validPairs tenRecords).length = 10 ∧
    ((DisputeSmlModel.initState.train tenRecords (3 / 20) (List.range 10)).1).testSamples =
      some 1 ∧
    round ((10 : ℚ) * (3 / 20)) = 2 := by
  have hlen : (validPairs tenRecords).length = 10 := by decide
  have h := (train_split_sizes DisputeSmlModel.initState tenRecords (3 / 20) (List.range 10)
    (by omega) (by norm_num) (by norm_num) (by simpa using hlen.symm)).1
  rw [hlen] at h
  refine ⟨hlen, ?_, ?_⟩
  · rw [h]
    norm_num
  · norm_num [round_eq]

/-- **C2 amended.** For at least 10 valid rows and a test fraction
`0 <= t <= 1`, the held-out test set has exactly `int(n * t)` rows — the
floor (truncation toward zero) of `n * t`, not its rounding — and the
remaining `n - int(n * t)` rows are the training rows. -/
theorem train_test_size (st : DisputeSmlModel) (data : List SmlTrainingData)
    (t : ℚ) (perm : List ℕ)
    (h10 : 10 ≤ (validPairs data).length) (ht0 : 0 ≤ t) (ht1 : t ≤ 1)
    (hperm : perm.length = (validPairs data).length) :
    (st.train data t perm).1.testSamples =
      some (⌊((validPairs data).length : ℚ) * t⌋.toNat) ∧
    (st.train data t perm).1.trainingSamples =
      some ((validPairs data).length - ⌊((validPairs data).length : ℚ) * t⌋.toNat) :=
  train_split_sizes st data t perm h10 ht0 ht1 hperm

/-- Witness for C2 (amended) at ten valid records, `t = 1/5`,
`perm = range 10`. -/
theorem train_test_size_witness :
    (10 ≤ (validPairs tenRecords).length ∧ (0 : ℚ) ≤ 1 / 5 ∧ (1 : ℚ) / 5 ≤ 1 ∧
      (List.range 10).length = (validPairs tenRecords).length) ∧
    (DisputeSmlModel.initState.train tenRecords (1 / 5) (List.range 10)).1.testSamples =
      some (⌊((validPairs tenRecords).length : ℚ) * (1 / 5)⌋.toNat) ∧
    (DisputeSmlModel.initState.train tenRecords (1 / 5) (List.range 10)).1.trainingSamples =
      some ((validPairs tenRecords).length -
        ⌊((validPairs tenRecords).length : ℚ) * (1 / 5)⌋.toNat) :=
  ⟨⟨by decide, by norm_num, by norm_num, by decide⟩,
    train_test_size DisputeSmlModel.initState tenRecords (1 / 5) (List.range 10)
      (by decide) (by norm_num) (by norm_num) (by decide)⟩

/-- **C4 amended.** When no model is in memory and no artifact is persisted,
`predict` returns verdict `PENDING` (0), confidence 0, and the literal
rationale `"Model not trained yet"` (capitalized, unlike the claimed
all-lowercase literal); as a total function it raises nothing. -/
theorem predict_untrained_default (st : DisputeSmlModel)
    (case_data : SmlTrainingData) (h : st.model = none) :
    (st.predict none case_data).1 =
      PredictResult.untrained JuryVerdict.PENDING 0 "Model not trained yet" ∧
    (st.predict none case_data).2 = st := by
  simp only [DisputeSmlModel.predict, DisputeSmlModel.load, h]
  exact ⟨trivial, trivial⟩

/-- Witness for C4 (amended): a fresh manager with an empty store. -/
theorem predict_untrained_default_witness :
    DisputeSmlModel.initState.model = none ∧
    (DisputeSmlModel.initState.predict none (mkCase 1 2 1 50 50 24 24 0 0 0)).1 =
      PredictResult.untrained JuryVerdict.PENDING 0 "Model not trained yet" ∧
    (DisputeSmlModel.initState.predict none (mkCase 1 2 1 50 50 24 24 0 0 0)).2 =
      DisputeSmlModel.initState :=
  ⟨rfl, predict_untrained_default DisputeSmlModel.initState
    (mkCase 1 2 1 50 50 24 24 0 0 0) rfl⟩

/-- **C4 counterexample.** The degraded result's rationale is the
capitalized string "Model not trained yet", so it is not the claimed
lowercase literal "model not trained yet". -/
theorem predict_untrained_cex :
    (DisputeSmlModel.initState.predict none (mkCase 1 2 1 50 50 24 24 0 0 0)).1.reasoningOf =
      "Model not trained yet" ∧
    ¬ (DisputeSmlModel.initState.predict none
        (mkCase 1 2 1 50 50 24 24 0 0 0)).1.reasoningOf = "model not trained yet" := by
  refine ⟨rfl, fun h => ?_⟩
  rw [show (DisputeSmlModel.initState.predict none
      (mkCase 1 2 1 50 50 24 24 0 0 0)).1.reasoningOf = "Model not trained yet" from rfl] at h
  exact absurd h (by decide)

/-- The evidence rule emits one of three values. -/
theorem evidenceNotes_cases (c : SmlTrainingData) :
    evidenceNotes c = [] ∨ evidenceNotes c = ["Party A has stronger evidence"] ∨
      evidenceNotes c = ["Party B has stronger evidence"] := by
  unfold evidenceNotes
  split_ifs <;> simp

/-- The response-time rule emits one of three values. -/
theorem responseNotes_cases (c : SmlTrainingData) :
    responseNotes c = [] ∨ responseNotes c = ["Party A responded more quickly"] ∨
      responseNotes c = ["Party B responded more quickly"] := by
  unfold responseNotes
  split_ifs <;> simp

/-- The prior-disputes rule emits one of three values. -/
theorem priorDisputeNotes_cases (c : SmlTrainingData) :
    priorDisputeNotes c = [] ∨
      priorDisputeNotes c = ["Party A has more prior disputes (negative signal)"] ∨
      priorDisputeNotes c = ["Party B has more prior disputes (negative signal)"] := by
  unfold priorDisputeNotes
  split_ifs <;> simp

/-- The category rule emits one of three values. -/
theorem categoryNotes_cases (c : SmlTrainingData) :
    categoryNotes c = [] ∨
      categoryNotes c = ["Non-delivery cases typically favor claimant if evidence is clear"] ∨
      categoryNotes c = ["Quality disputes often result in partial resolutions"] := by
  unfold categoryNotes
  split_ifs <;> simp

/-- **C8.** The rationale generator is a pure function applying its rules in
the fixed order evidence gap, response time, prior disputes, category note,
joining all triggered notes with "; "; the generic fallback appears exactly
when no rule fires. For evidence 85 vs 40 (all else neutral) the rationale
is the party-A-stronger-evidence note, the symmetric case gives the
mirrored note, a case triggering all four rules lists the notes in rule
order, and a fully neutral case gives the fallback. -/
theorem generate_reasoning_rules :
    (∀ case : SmlTrainingData,
      generate_reasoning case = fallbackReason ↔
        evidenceNotes case = [] ∧ responseNotes case = [] ∧
          priorDisputeNotes case = [] ∧ categoryNotes case = []) ∧
    generate_reasoning (mkCase 1 2 1 85 40 24 24 0 0 0) =
      "Party A has stronger evidence" ∧
    generate_reasoning (mkCase 1 2 1 40 85 24 24 0 0 0) =
      "Party B has stronger evidence" ∧
    generate_reasoning (mkCase 1 1 1 85 40 6 48 0 3 0) =
      "Party A has stronger evidence; Party A responded more quickly; Party B has more prior disputes (negative signal); Quality disputes often result in partial resolutions" ∧
    generate_reasoning (mkCase 1 2 1 50 50 24 24 0 0 0) = fallbackReason := by
  refine ⟨?_, ?_, ?_, ?_, ?_⟩
  · intro c
    rcases evidenceNotes_cases c with h1 | h1 | h1 <;>
      rcases responseNotes_cases c with h2 | h2 | h2 <;>
      rcases priorDisputeNotes_cases c with h3 | h3 | h3 <;>
      rcases categoryNotes_cases c with h4 | h4 | h4 <;>
      simp only [generate_reasoning, h1, h2, h3, h4] <;> decide
  · have h1 : evidenceNotes (mkCase 1 2 1 85 40 24 24 0 0 0) =
        ["Party A has stronger evidence"] := by
      unfold evidenceNotes mkCase; norm_num
    have h2 : responseNotes (mkCase 1 2 1 85 40 24 24 0 0 0) = [] := by
      unfold responseNotes mkCase; norm_num
    have h3 : priorDisputeNotes (mkCase 1 2 1 85 40 24 24 0 0 0) = [] := by
      unfold priorDisputeNotes mkCase; norm_num
    have h4 : categoryNotes (mkCase 1 2 1 85 40 24 24 0 0 0) = [] := by
      unfold categoryNotes mkCase DisputeCategory.NON_DELIVERY DisputeCategory.QUALITY_ISSUE
      norm_num
    simp only [generate_reasoning, h1, h2, h3, h4]
    decide
  · have h1 : evidenceNotes (mkCase 1 2 1 40 85 24 24 0 0 0) =
        ["Party B has stronger evidence"] := by
      unfold evidenceNotes mkCase; norm_num
    have h2 : responseNotes (mkCase 1 2 1 40 85 24 24 0 0 0) = [] := by
      unfold responseNotes mkCase; norm_num
    have h3 : priorDisputeNotes (mkCase 1 2 1 40 85 24 24 0 0 0) = [] := by
      unfold priorDisputeNotes mkCase; norm_num
    have h4 : categoryNotes (mkCase 1 2 1 40 85 24 24 0 0 0) = [] := by
      unfold categoryNotes mkCase DisputeCategory.NON_DELIVERY DisputeCategory.QUALITY_ISSUE
      norm_num
    simp only [generate_reasoning, h1, h2, h3, h4]
    decide
  · have h1 : evidenceNotes (mkCase 1 1 1 85 40 6 48 0 3 0) =
        ["Party A has stronger evidence"] := by
      unfold evidenceNotes mkCase; norm_num
    have h2 : responseNotes (mkCase 1 1 1 85 40 6 48 0 3 0) =
        ["Party A responded more quickly"] := by
      unfold responseNotes mkCase; norm_num
    have h3 : priorDisputeNotes (mkCase 1 1 1 85 40 6 48 0 3 0) =
        ["Party B has more prior disputes (negative signal)"] := by
      unfold priorDisputeNotes mkCase; norm_num
    have h4 : categoryNotes (mkCase 1 1 1 85 40 6 48 0 3 0) =
        ["Quality disputes often result in partial resolutions"] := by
      unfold categoryNotes mkCase DisputeCategory.NON_DELIVERY DisputeCategory.QUALITY_ISSUE
      norm_num
    simp only [generate_reasoning, h1, h2, h3, h4]
    decide
  · have h1 : evidenceNotes (mkCase 1 2 1 50 50 24 24 0 0 0) = [] := by
      unfold evidenceNotes mkCase; norm_num
    have h2 : responseNotes (mkCase 1 2 1 50 50 24 24 0 0 0) = [] := by
      unfold responseNotes mkCase; norm_num
    have h3 : priorDisputeNotes (mkCase 1 2 1 50 50 24 24 0 0 0) = [] := by
      unfold priorDisputeNotes mkCase; norm_num
    have h4 : categoryNotes (mkCase 1 2 1 50 50 24 24 0 0 0) = [] := by
      unfold categoryNotes mkCase DisputeCategory.NON_DELIVERY DisputeCategory.QUALITY_ISSUE
      norm_num
    simp only [generate_reasoning, h1, h2, h3, h4]
    decide

/-- The candidate-loop step, written through `evalCand` and `pickBetter`. -/
theorem stepCand_eq (X : Mat α) (res : List α) (acc : Option (α × DecisionStump α))
    (c : ℕ × α) :
    stepCand X res acc c =
      match evalCand X res c with
      | none => acc
      | some gs => pickBetter acc gs := by
  cases acc with
  | none => by_cases h : accepted X c <;> simp [stepCand, evalCand, pickBetter, h]
  | some a => by_cases h : accepted X c <;> simp [stepCand, evalCand, pickBetter, h]

/-- The candidate fold only sees the accepted, evaluated candidates. -/
theorem foldl_stepCand_eq (X : Mat α) (res : List α) (L : List (ℕ × α))
    (acc : Option (α × DecisionStump α)) :
    L.foldl (stepCand X res) acc = (L.filterMap (evalCand X res)).foldl pickBetter acc := by
  induction L generalizing acc with
  | nil => rfl
  | cons x xs ih =>
    rw [List.foldl_cons, stepCand_eq]
    cases hx : evalCand X res x with
    | none => simp [List.filterMap_cons, hx, ih]
    | some gs => simp [List.filterMap_cons, hx, ih]

/-- Evaluating all candidates is mapping the evaluator over the accepted
ones. -/
theorem filterMap_evalCand (X : Mat α) (res : List α) :
    (allCandidates X).filterMap (evalCand X res) =
      (acceptedList X).map (fun c =>
        (candGain (column X c.1) res c.2, candStump X res c.1 c.2)) := by
  unfold acceptedList
  induction allCandidates X with
  | nil => rfl
  | cons x xs ih =>
    by_cases h : accepted X x <;>
      simp [List.filterMap_cons, List.filter_cons, evalCand, h, ih]

/-- Folding `pickBetter` from a seed computes the leftmost maximiser. -/
theorem foldl_pickBetter_some (l : List (α × DecisionStump α))
    (a : α × DecisionStump α) :
    l.foldl pickBetter (some a) = some (firstMaxOf Prod.fst a l) := by
  induction l generalizing a with
  | nil => rfl
  | cons x xs ih =>
    obtain ⟨g, s⟩ := a
    by_cases h : x.1 > g <;> simp [pickBetter, firstMaxOf, h, ih]

/-- The result of `firstMaxOf` is one of the considered elements. -/
theorem firstMaxOf_mem {β : Type*} (val : β → α) (a : β) (l : List β) :
    firstMaxOf val a l ∈ a :: l := by
  induction l generalizing a with
  | nil => simp [firstMaxOf]
  | cons x xs ih =>
    have h := ih (if val x > val a then x else a)
    rw [show firstMaxOf val a (x :: xs) =
      firstMaxOf val (if val x > val a then x else a) xs from rfl]
    rcases List.mem_cons.1 h with h1 | h1
    · rw [h1]
      by_cases hx : val x > val a <;> simp [hx]
    · simp [h1]

/-- The seed never exceeds the result of `firstMaxOf`. -/
theorem le_val_firstMaxOf {β : Type*} (val : β → α) (a : β) (l : List β) :
    val a ≤ val (firstMaxOf val a l) := by
  induction l generalizing a with
  | nil => simp [firstMaxOf]
  | cons x xs ih =>
    rw [show firstMaxOf val a (x :: xs) =
      firstMaxOf val (if val x > val a then x else a) xs from rfl]
    refine le_trans ?_ (ih _)
    by_cases hx : val x > val a <;> simp [hx]
    exact le_of_lt hx

/-- Every considered element is bounded by the result of `firstMaxOf`. -/
theorem val_le_firstMaxOf {β : Type*} (val : β → α) (a : β) (l : List β) :
    ∀ y ∈ a :: l, val y ≤ val (firstMaxOf val a l) := by
  induction l generalizing a with
  | nil =>
    intro y hy
    rw [List.mem_singleton.1 hy]
    simp [firstMaxOf]
  | cons x xs ih =>
    intro y hy
    rw [show firstMaxOf val a (x :: xs) =
      firstMaxOf val (if val x > val a then x else a) xs from rfl]
    rcases List.mem_cons.1 hy with h1 | h1
    · rw [h1]
      refine le_trans ?_ (le_val_firstMaxOf val _ xs)
      by_cases hx : val x > val a <;> simp [hx]
      exact le_of_lt hx
    · rcases List.mem_cons.1 h1 with h2 | h2
      · rw [h2]
        refine le_trans ?_ (le_val_firstMaxOf val _ xs)
        by_cases hx : val x > val a <;> simp [hx]
        exact not_lt.1 hx
      · exact ih _ y (List.mem_cons_of_mem _ h2)

/-- `firstMaxOf` keeps its seed unless some element strictly beats it. -/
theorem firstMaxOf_eq_seed {β : Type*} (val : β → α) (a : β) (l : List β)
    (h : val (firstMaxOf val a l) ≤ val a) : firstMaxOf val a l = a := by
  induction l generalizing a with
  | nil => rfl
  | cons x xs ih =>
    rw [show firstMaxOf val a (x :: xs) =
      firstMaxOf val (if val x > val a then x else a) xs from rfl] at h ⊢
    by_cases hx : val x > val a
    · exfalso
      rw [if_pos hx] at h
      exact absurd (le_trans (le_val_firstMaxOf val x xs) h) (not_le.2 hx)
    · rw [if_neg hx] at h ⊢
      exact ih a h

/-- Among elements attaining the maximum, `firstMaxOf` returns the first in
list order: any other maximiser is either the result itself or strictly
after it in any relation that pairwise-orders the list. -/
theorem firstMaxOf_first {β γ : Type*} (val : β → α) (key : β → γ)
    (R : γ → γ → Prop) (a : β) (l : List β)
    (hp : List.Pairwise (fun u v => R (key u) (key v)) (a :: l)) :
    ∀ y ∈ a :: l, val y = val (firstMaxOf val a l) →
      firstMaxOf val a l = y ∨ R (key (firstMaxOf val a l)) (key y) := by
  induction l generalizing a with
  | nil =>
    intro y hy _
    exact Or.inl (List.mem_singleton.1 hy).symm
  | cons x xs ih =>
    intro y hy hval
    rw [show firstMaxOf val a (x :: xs) =
      firstMaxOf val (if val x > val a then x else a) xs from rfl] at hval ⊢
    by_cases hx : val x > val a
    · rw [if_pos hx] at hval ⊢
      rcases List.mem_cons.1 hy with h1 | h1
      · exfalso
        have hge : val x ≤ val (firstMaxOf val x xs) := le_val_firstMaxOf val x xs
        rw [← h1, hval] at hx
        exact absurd hge (not_le.2 hx)
      · exact ih x (hp.sublist (List.sublist_cons_self a (x :: xs))) y h1 hval
    · rw [if_neg hx] at hval ⊢
      have hsub : List.Pairwise (fun u v => R (key u) (key v)) (a :: xs) :=
        hp.sublist (List.cons_sublist_cons.2 (List.sublist_cons_self x xs))
      rcases List.mem_cons.1 hy with h1 | h1
      · exact ih a hsub y (h1 ▸ List.mem_cons_self a xs) hval
      · rcases List.mem_cons.1 h1 with h2 | h2
        · have hxa : val x ≤ val a := not_lt.1 hx
          have hfa : val (firstMaxOf val a xs) ≤ val a := by
            rw [h2] at hval
            rw [← hval]
            exact hxa
          have hseed : firstMaxOf val a xs = a := firstMaxOf_eq_seed val a xs hfa
          rw [hseed, h2]
          exact Or.inr ((List.pairwise_cons.1 hp).1 x (List.mem_cons_self x xs))
        · exact ih a hsub y (List.mem_cons_of_mem a h2) hval

/-- The distinct sorted threshold list is strictly increasing. -/
theorem uniqueSorted_pairwise_lt (l : List α) :
    List.Pairwise (· < ·) (uniqueSorted l) := by
  unfold uniqueSorted
  have hs : List.Pairwise (· ≤ ·) ((l.insertionSort (· ≤ ·)).dedup) :=
    (List.sorted_insertionSort (· ≤ ·) l).sublist (List.dedup_sublist _)
  have hn : List.Pairwise (· ≠ ·) ((l.insertionSort (· ≤ ·)).dedup) :=
    List.nodup_dedup _
  exact (hs.and hn).imp (fun h => lt_of_le_of_ne h.1 h.2)

/-- Candidates are visited in strictly increasing lexicographic order:
features ascending, thresholds ascending within a feature. -/
theorem allCandidates_pairwise (X : Mat α) :
    List.Pairwise lexLT (allCandidates X) := by
  unfold allCandidates
  rw [List.pairwise_flatMap]
  constructor
  · intro f _
    rw [List.pairwise_map]
    exact (uniqueSorted_pairwise_lt _).imp (fun h => Or.inr ⟨rfl, h⟩)
  · refine (List.pairwise_lt_range _).imp ?_
    intro f g hfg x hx y hy
    obtain ⟨tx, _, hx2⟩ := List.mem_map.1 hx
    obtain ⟨ty, _, hy2⟩ := List.mem_map.1 hy
    rw [← hx2, ← hy2]
    exact Or.inl hfg

/-- The accepted candidates inherit the strict lexicographic order. -/
theorem acceptedList_pairwise (X : Mat α) :
    List.Pairwise lexLT (acceptedList X) :=
  (allCandidates_pairwise X).filter _

/-- **C9.** When at least one candidate is accepted, the fitted stump's
(feature, threshold) pair is an accepted candidate attaining the maximal
gain, and among all accepted candidates attaining that maximal gain it is
the lexicographically least: lowest feature index, then lowest threshold.
(Candidates are enumerated with features ascending and thresholds
ascending, and replacement happens only on strictly greater gain.) -/
theorem fit_tie_break (X : Mat α) (res : List α)
    (h : scoredCandidates X res ≠ []) :
    ((DecisionStump.fit X res).feature_idx, (DecisionStump.fit X res).threshold,
        candGain (column X (DecisionStump.fit X res).feature_idx) res
          (DecisionStump.fit X res).threshold) ∈ scoredCandidates X res ∧
    (∀ e ∈ scoredCandidates X res,
      e.2.2 ≤ candGain (column X (DecisionStump.fit X res).feature_idx) res
        (DecisionStump.fit X res).threshold) ∧
    (∀ e ∈ scoredCandidates X res,
      e.2.2 = candGain (column X (DecisionStump.fit X res).feature_idx) res
        (DecisionStump.fit X res).threshold →
      lexLE ((DecisionStump.fit X res).feature_idx, (DecisionStump.fit X res).threshold)
        (e.1, e.2.1)) := by
  have hne : acceptedList X ≠ [] := by
    intro hac
    exact h (by simp [scoredCandidates, hac])
  obtain ⟨c0, cs, hM⟩ := List.exists_cons_of_ne_nil hne
  set f : ℕ × α → α × DecisionStump α :=
    fun c => (candGain (column X c.1) res c.2, candStump X res c.1 c.2) with hf
  have hfold : DecisionStump.fit X res =
      (firstMaxOf Prod.fst (f c0) (cs.map f)).2 := by
    unfold DecisionStump.fit
    rw [foldl_stepCand_eq, filterMap_evalCand, hM, List.map_cons, List.foldl_cons,
      show pickBetter none (f c0) = some (f c0) from rfl, foldl_pickBetter_some]
  set fm := firstMaxOf Prod.fst (f c0) (cs.map f) with hfm
  have hmem : fm ∈ (acceptedList X).map f := by
    rw [hM, List.map_cons]
    exact firstMaxOf_mem Prod.fst (f c0) (cs.map f)
  obtain ⟨c, hcmem, hcf⟩ := List.mem_map.1 hmem
  have hkey1 : (DecisionStump.fit X res).feature_idx = c.1 := by
    rw [hfold, ← hcf]
    rfl
  have hkey2 : (DecisionStump.fit X res).threshold = c.2 := by
    rw [hfold, ← hcf]
    rfl
  have hgain : candGain (column X (DecisionStump.fit X res).feature_idx) res
      (DecisionStump.fit X res).threshold = fm.1 := by
    rw [hkey1, hkey2, ← hcf]
  refine ⟨?_, ?_, ?_⟩
  · rw [hgain, hkey1, hkey2, ← hcf]
    exact List.mem_map.2 ⟨c, hcmem, by rfl⟩
  · intro e he
    obtain ⟨c', hc'mem, hc'e⟩ := List.mem_map.1 (by
      simpa [scoredCandidates] using he :
        e ∈ (acceptedList X).map (fun c => (c.1, c.2, candGain (column X c.1) res c.2)))
    have : (f c').1 ≤ fm.1 := by
      have hmem' : f c' ∈ f c0 :: cs.map f := by
        rw [← List.map_cons, ← hM]
        exact List.mem_map.2 ⟨c', hc'mem, rfl⟩
      exact val_le_firstMaxOf Prod.fst (f c0) (cs.map f) (f c') hmem'
    rw [hgain, ← hc'e]
    exact this
  · intro e he heq
    obtain ⟨c', hc'mem, hc'e⟩ := List.mem_map.1 (by
      simpa [scoredCandidates] using he :
        e ∈ (acceptedList X).map (fun c => (c.1, c.2, candGain (column X c.1) res c.2)))
    have hpair : List.Pairwise
        (fun u v => lexLT ((fun gs : α × DecisionStump α =>
          (gs.2.feature_idx, gs.2.threshold)) u)
          ((fun gs : α × DecisionStump α => (gs.2.feature_idx, gs.2.threshold)) v))
        (f c0 :: cs.map f) := by
      rw [← List.map_cons, ← hM, List.pairwise_map]
      exact (acceptedList_pairwise X).imp (fun {u v} huv => huv)
    have hmem' : f c' ∈ f c0 :: cs.map f := by
      rw [← List.map_cons, ← hM]
      exact List.mem_map.2 ⟨c', hc'mem, rfl⟩
    have hval : (f c').1 = fm.1 := by
      rw [← hc'e] at heq
      rw [hgain] at heq
      exact heq
    have hres := firstMaxOf_first Prod.fst
      (fun gs : α × DecisionStump α => (gs.2.feature_idx, gs.2.threshold)) lexLT
      (f c0) (cs.map f) hpair (f c') hmem' hval
    have hkeyc' : ((f c').2.feature_idx, (f c').2.threshold) = (c'.1, c'.2) := rfl
    have hkeyfm : (fm.2.feature_idx, fm.2.threshold) =
        ((DecisionStump.fit X res).feature_idx, (DecisionStump.fit X res).threshold) := by
      rw [hfold]
    rw [← hfm] at hres
    rcases hres with h1 | h1
    · have hk : ((DecisionStump.fit X res).feature_idx,
          (DecisionStump.fit X res).threshold) = (c'.1, c'.2) := by
        rw [← hkeyfm, h1, hkeyc']
      rw [← hc'e]
      exact Or.inr ⟨congrArg Prod.fst hk, le_of_eq (congrArg Prod.snd hk)⟩
    · have h1' : lexLT (fm.2.feature_idx, fm.2.threshold)
          ((f c').2.feature_idx, (f c').2.threshold) := h1
      rw [hkeyfm, hkeyc'] at h1'
      rw [← hc'e]
      rcases h1' with h2 | h2
      · exact Or.inl h2
      · exact Or.inr ⟨h2.1, le_of_lt h2.2⟩

/-- Witness for C9: a feature column with one accepted threshold. -/
theorem fit_tie_break_witness :
    scoredCandidates ([[0], [0], [1], [1]] : Mat ℚ) [1, 1, 0, 0] ≠ [] ∧
    ((DecisionStump.fit ([[0], [0], [1], [1]] : Mat ℚ) [1, 1, 0, 0]).feature_idx,
        (DecisionStump.fit ([[0], [0], [1], [1]] : Mat ℚ) [1, 1, 0, 0]).threshold,
        candGain (column ([[0], [0], [1], [1]] : Mat ℚ)
            (DecisionStump.fit ([[0], [0], [1], [1]] : Mat ℚ) [1, 1, 0, 0]).feature_idx)
          [1, 1, 0, 0]
          (DecisionStump.fit ([[0], [0], [1], [1]] : Mat ℚ) [1, 1, 0, 0]).threshold) ∈
      scoredCandidates ([[0], [0], [1], [1]] : Mat ℚ) [1, 1, 0, 0] :=
  ⟨by decide, (fit_tie_break ([[0], [0], [1], [1]] : Mat ℚ) [1, 1, 0, 0] (by decide)).1⟩

/-- Membership in `enumFrom` is indexed lookup. -/
theorem mem_enumFrom_iff {l : List ℝ} {n i : ℕ} {v : ℝ} :
    (i, v) ∈ l.enumFrom n ↔ n ≤ i ∧ l.get? (i - n) = some v := by
  induction l generalizing n with
  | nil => simp
  | cons x xs ih =>
    rw [List.enumFrom_cons]
    simp only [List.mem_cons, ih, Prod.mk.injEq]
    constructor
    · rintro (⟨rfl, rfl⟩ | ⟨h1, h2⟩)
      · simp
      · refine ⟨by omega, ?_⟩
        have hi : i - n = (i - (n + 1)) + 1 := by omega
        rw [hi, List.get?_cons_succ]
        exact h2
    · rintro ⟨h1, h2⟩
      rcases Nat.eq_or_lt_of_le h1 with rfl | hlt
      · left
        simp only [Nat.sub_self, List.get?_cons_zero, Option.some.injEq] at h2
        exact ⟨rfl, h2.symm⟩
      · right
        refine ⟨by omega, ?_⟩
        have hi : i - n = (i - (n + 1)) + 1 := by omega
        rw [hi, List.get?_cons_succ] at h2
        exact h2

/-- A pairwise relation on the left component survives zipping. -/
theorem pairwise_zip_left {β γ : Type*} {S : β → β → Prop} {l : List β}
    (l' : List γ) (h : List.Pairwise S l) :
    List.Pairwise (fun p q => S p.1 q.1) (l.zip l') := by
  induction l generalizing l' with
  | nil => simp
  | cons a as ih =>
    cases l' with
    | nil => simp
    | cons b bs =>
      rcases List.pairwise_cons.1 h with ⟨ha, hl⟩
      rw [List.zip_cons_cons]
      refine List.pairwise_cons.2 ⟨?_, ih bs hl⟩
      rintro ⟨y1, y2⟩ hy
      exact ha y1 (List.of_mem_zip hy).1

/-- Indices in an enumeration are strictly increasing. -/
theorem enum_pairwise_fst (l : List ℝ) :
    List.Pairwise (fun p q : ℕ × ℝ => p.1 < q.1) l.enum := by
  rw [List.enum_eq_zip_range]
  exact pairwise_zip_left l (List.pairwise_lt_range l.length)

/-- `entry` through a successful lookup. -/
theorem entry_eq_of_get? {row : List ℝ} {j : ℕ} {v : ℝ} (h : row.get? j = some v) :
    entry row j = v := by
  unfold entry
  rw [List.getD_eq_get?, h]
  rfl

/-- `np.argmax` returns the lowest index attaining the maximum. -/
theorem argmaxIdx_spec (row : List ℝ) (h : row ≠ []) :
    IsFirstArgmax row (argmaxIdx row) := by
  obtain ⟨x, xs, rfl⟩ := List.exists_cons_of_ne_nil h
  have henum : (x :: xs).enum = (0, x) :: List.enumFrom 1 xs := List.enum_cons
  have hax : argmaxIdx (x :: xs) =
      (firstMaxOf Prod.snd (0, x) (List.enumFrom 1 xs)).1 := by
    unfold argmaxIdx
    rw [henum]
    rfl
  set fm := firstMaxOf Prod.snd (0, x) (List.enumFrom 1 xs) with hfm
  have hmem' : ∀ p : ℕ × ℝ, p ∈ (0, x) :: List.enumFrom 1 xs ↔
      (x :: xs).get? p.1 = some p.2 := by
    rintro ⟨i, v⟩
    rw [← henum]
    show (i, v) ∈ List.enumFrom 0 (x :: xs) ↔ _
    rw [mem_enumFrom_iff]
    simp
  have hmem : fm ∈ (0, x) :: List.enumFrom 1 xs :=
    firstMaxOf_mem Prod.snd (0, x) (List.enumFrom 1 xs)
  have hget : (x :: xs).get? fm.1 = some fm.2 := (hmem' fm).1 hmem
  rcases List.get?_eq_some.1 hget with ⟨hlt, _⟩
  have hentry : entry (x :: xs) fm.1 = fm.2 := entry_eq_of_get? hget
  have hub : ∀ j < (x :: xs).length, entry (x :: xs) j ≤ entry (x :: xs) fm.1 := by
    intro j hj
    rcases List.get?_eq_some.2 ⟨hj, rfl⟩ with hg
    have hpmem : ((j, (x :: xs).get ⟨j, hj⟩) : ℕ × ℝ) ∈ (0, x) :: List.enumFrom 1 xs :=
      (hmem' _).2 hg
    have := val_le_firstMaxOf Prod.snd (0, x) (List.enumFrom 1 xs) _ hpmem
    rw [hentry, entry_eq_of_get? hg]
    exact this
  refine ⟨?_, ?_, ?_⟩
  · rw [hax]
    exact hlt
  · intro j hj
    rw [hax]
    exact hub j hj
  · intro j hj
    rw [hax] at hj ⊢
    have hjlt : j < (x :: xs).length := lt_trans hj hlt
    refine lt_of_le_of_ne (hub j hjlt) ?_
    intro heqv
    rcases List.get?_eq_some.2 ⟨hjlt, rfl⟩ with hg
    have hpmem : ((j, (x :: xs).get ⟨j, hjlt⟩) : ℕ × ℝ) ∈ (0, x) :: List.enumFrom 1 xs :=
      (hmem' _).2 hg
    have hpw : List.Pairwise (fun p q : ℕ × ℝ => p.1 < q.1)
        ((0, x) :: List.enumFrom 1 xs) := by
      rw [← henum]
      exact enum_pairwise_fst (x :: xs)
    have hval : ((j, (x :: xs).get ⟨j, hjlt⟩) : ℕ × ℝ).2 = fm.2 := by
      rw [← entry_eq_of_get? hg, heqv, hentry]
    have hres := firstMaxOf_first Prod.snd Prod.fst (fun a b : ℕ => a < b)
      (0, x) (List.enumFrom 1 xs) hpw _ hpmem hval
    rcases hres with h1 | h1
    · rw [← hfm] at h1
      have : fm.1 = j := by rw [h1]
      omega
    · rw [← hfm] at h1
      have : fm.1 < j := h1
      omega

/-- Sums distribute over a pointwise division. -/
theorem sum_map_div (l : List ℝ) (s : ℝ) :
    (l.map (fun e => e / s)).sum = l.sum / s := by
  induction l with
  | nil => simp
  | cons a as ih => simp [ih, add_div]

/-- The three facts about one softmax row. -/
theorem softmaxRow_props (row : List ℝ) (h : row ≠ []) :
    (∀ p ∈ softmaxRow row, 0 ≤ p ∧ p ≤ 1) ∧ (softmaxRow row).sum = 1 ∧
      (softmaxRow row).length = row.length := by
  have hpos : ∀ e ∈ row.map (fun v => Real.exp (v - rowMax row)), 0 < e := by
    intro e hee
    obtain ⟨v, _, rfl⟩ := List.mem_map.1 hee
    exact Real.exp_pos _
  have hne : row.map (fun v => Real.exp (v - rowMax row)) ≠ [] := by
    simpa using h
  have hsum : 0 < (row.map (fun v => Real.exp (v - rowMax row))).sum :=
    List.sum_pos _ hpos hne
  refine ⟨?_, ?_, ?_⟩
  · intro p hp
    obtain ⟨e, hee, rfl⟩ := List.mem_map.1 hp
    refine ⟨le_of_lt (div_pos (hpos e hee) hsum), ?_⟩
    rw [div_le_one hsum]
    exact List.single_le_sum (fun y hy => le_of_lt (hpos y hy)) e hee
  · unfold softmaxRow
    simp only [sum_map_div]
    exact div_self (ne_of_gt hsum)
  · unfold softmaxRow
    simp

/-- Fold preservation of a matrix invariant. -/
theorem foldl_mat_preserves {β : Type*} (Q : Mat ℝ → Prop) (g : Mat ℝ → β → Mat ℝ)
    (hg : ∀ P b, Q P → Q (g P b)) (l : List β) (P : Mat ℝ) (hP : Q P) :
    Q (l.foldl g P) := by
  induction l generalizing P with
  | nil => exact hP
  | cons b bs ih => exact ih (g P b) (hg P b hP)

/-- Rows of a zipWith over rows come from the left list. -/
theorem mem_zipWith_rows {f : List ℝ → ℝ → List ℝ} {P : Mat ℝ} {v : List ℝ}
    {row : List ℝ} (h : row ∈ List.zipWith f P v) :
    ∃ r ∈ P, ∃ u, row = f r u := by
  induction P generalizing v with
  | nil => simp at h
  | cons r rs ih =>
    cases v with
    | nil => simp at h
    | cons u us =>
      rw [List.zipWith_cons_cons] at h
      rcases List.mem_cons.1 h with h1 | h1
      · exact ⟨r, by simp, u, h1⟩
      · obtain ⟨r', hr', u', he⟩ := ih h1
        exact ⟨r', by simp [hr'], u', he⟩

/-- The score update keeps the row count and all row lengths. -/
theorem updateScores_preserves {n L : ℕ} {P : Mat ℝ} {c : ℕ} {lr : ℝ} {v : List ℝ}
    (hv : v.length = n) (hP : P.length = n ∧ ∀ row ∈ P, row.length = L) :
    (updateScores P c lr v).length = n ∧
      ∀ row ∈ updateScores P c lr v, row.length = L := by
  constructor
  · rw [updateScores, List.length_zipWith, hP.1, hv]
    exact min_self n
  · intro row hrow
    obtain ⟨r, hr, u, rfl⟩ := mem_zipWith_rows hrow
    rw [List.length_set]
    exact hP.2 r hr

/-- **C7.** For a six-class ensemble and a non-empty input, `predict_proba`
is non-empty, every entry lies in [0, 1], every row has six entries and sums
to 1 (hence to 1 within 1e-5); `predict` maps each probability row to the
lowest index attaining its maximum, a value in 0..5. -/
theorem predict_proba_rows_valid (m : SimpleGradientBoosting) (X : Mat ℝ)
    (h6 : m.initial_predictions.length = 6) (hX : X ≠ []) :
    m.predict_proba X ≠ [] ∧
    (∀ row ∈ m.predict_proba X,
      (∀ p ∈ row, 0 ≤ p ∧ p ≤ 1) ∧ row.length = 6 ∧ row.sum = 1 ∧
        |row.sum - 1| ≤ 1 / 100000) ∧
    (∀ k ∈ m.predict X, k < 6) ∧
    ∀ i row, (m.predict_proba X).get? i = some row →
      (m.predict X).get? i = some (argmaxIdx row) ∧
        IsFirstArgmax row (argmaxIdx row) := by
  have hstep : ∀ (P : Mat ℝ) (cs : ℕ × DecisionStump ℝ),
      (P.length = X.length ∧ ∀ row ∈ P, row.length = 6) →
      ((updateScores P cs.1 m.learning_rate (cs.2.predict X)).length = X.length ∧
        ∀ row ∈ updateScores P cs.1 m.learning_rate (cs.2.predict X), row.length = 6) := by
    intro P cs hP
    exact updateScores_preserves (by simp [DecisionStump.predict]) hP
  have hQ : ∀ (rounds : List (List (DecisionStump ℝ))) (P : Mat ℝ),
      (P.length = X.length ∧ ∀ row ∈ P, row.length = 6) →
      ((rounds.foldl (fun Q round => round.enum.foldl
          (fun R cs => updateScores R cs.1 m.learning_rate (cs.2.predict X)) Q) P).length
        = X.length ∧
        ∀ row ∈ rounds.foldl (fun Q round => round.enum.foldl
          (fun R cs => updateScores R cs.1 m.learning_rate (cs.2.predict X)) Q) P,
          row.length = 6) := by
    intro rounds P hP
    refine foldl_mat_preserves
      (fun P => P.length = X.length ∧ ∀ row ∈ P, row.length = 6) _ ?_ rounds P hP
    intro P round hPr
    exact foldl_mat_preserves
      (fun P => P.length = X.length ∧ ∀ row ∈ P, row.length = 6) _
      (fun P cs h => hstep P cs h) round.enum P hPr
  have hP0 : ((X.map (fun _ => m.initial_predictions)) : Mat ℝ).length = X.length ∧
      ∀ row ∈ (X.map (fun _ => m.initial_predictions) : Mat ℝ), row.length = 6 := by
    constructor
    · exact List.length_map X _
    · intro row hrow
      obtain ⟨_, _, rfl⟩ := List.mem_map.1 hrow
      exact h6
  have hPP : m.predict_proba X =
      (m.estimators.foldl (fun Q round => round.enum.foldl
        (fun R cs => updateScores R cs.1 m.learning_rate (cs.2.predict X)) Q)
        (X.map (fun _ => m.initial_predictions))).map softmaxRow := rfl
  have hfinal := hQ m.estimators (X.map (fun _ => m.initial_predictions)) hP0
  have hrows : ∀ row ∈ m.predict_proba X,
      (∀ p ∈ row, 0 ≤ p ∧ p ≤ 1) ∧ row.length = 6 ∧ row.sum = 1 ∧
        |row.sum - 1| ≤ 1 / 100000 := by
    intro row hrow
    rw [hPP] at hrow
    obtain ⟨r, hr, rfl⟩ := List.mem_map.1 hrow
    have hrlen : r.length = 6 := hfinal.2 r hr
    have hrne : r ≠ [] := by
      intro hnil
      rw [hnil] at hrlen
      simp at hrlen
    obtain ⟨hb, hs, hl⟩ := softmaxRow_props r hrne
    refine ⟨hb, by rw [hl, hrlen], hs, by rw [hs]; norm_num⟩
  refine ⟨?_, hrows, ?_, ?_⟩
  · rw [hPP]
    intro hnil
    have h0 := List.map_eq_nil_iff.1 hnil
    have hlen0 := hfinal.1
    rw [h0] at hlen0
    exact hX (List.length_eq_zero.1 (by simpa using hlen0.symm))
  · intro k hk
    obtain ⟨row, hrow, rfl⟩ := List.mem_map.1 hk
    have h6r : row.length = 6 := (hrows row hrow).2.1
    have hrne : row ≠ [] := by
      intro hnil
      rw [hnil] at h6r
      simp at h6r
    have := (argmaxIdx_spec row hrne).1
    rw [h6r] at this
    exact this
  · intro i row hrow
    have hmap : (m.predict X).get? i = Option.map argmaxIdx ((m.predict_proba X).get? i) :=
      List.get?_map _ _ _
    have hmem : row ∈ m.predict_proba X := List.get?_mem hrow
    have h6r : row.length = 6 := (hrows row hmem).2.1
    have hrne : row ≠ [] := by
      intro hnil
      rw [hnil] at h6r
      simp at h6r
    refine ⟨by rw [hmap, hrow]; rfl, argmaxIdx_spec row hrne⟩

/-- Witness for C7: the empty six-class ensemble on a one-row input. -/
theorem predict_proba_rows_valid_witness :
    (witnessModel.initial_predictions.length = 6 ∧ ([[0]] : Mat ℝ) ≠ []) ∧
    (witnessModel.predict_proba [[0]] ≠ [] ∧
      (∀ row ∈ witnessModel.predict_proba [[0]],
        (∀ p ∈ row, 0 ≤ p ∧ p ≤ 1) ∧ row.length = 6 ∧ row.sum = 1 ∧
          |row.sum - 1| ≤ 1 / 100000) ∧
      (∀ k ∈ witnessModel.predict [[0]], k < 6) ∧
      ∀ i row, (witnessModel.predict_proba [[0]]).get? i = some row →
        (witnessModel.predict [[0]]).get? i = some (argmaxIdx row) ∧
          IsFirstArgmax row (argmaxIdx row)) :=
  ⟨⟨rfl, by simp⟩,
    predict_proba_rows_valid witnessModel [[0]] rfl (by simp)⟩

/-- The per-class loop of one boosting round computes `roundStumps` and
ends with `partialScores` of the full class count. -/
theorem fitClassFold_spec (X oneHotM : Mat ℝ) (lr : ℝ) (nc : ℕ) (P : Mat ℝ) :
    (List.range nc).foldl (fitClassStep X oneHotM lr) ([], P) =
      (roundStumps X oneHotM lr P nc, partialScores X oneHotM lr P nc) := by
  induction nc with
  | zero => rfl
  | succ n ih =>
    rw [List.range_succ, List.foldl_append, ih, List.foldl_cons, List.foldl_nil]
    unfold fitClassStep
    simp only [roundStumps, partialScores, List.range_succ, List.map_append,
      List.map_cons, List.map_nil]

/-- The outer boosting loop collects one `roundStumps` list per round,
each starting from the scores the previous rounds left behind. -/
theorem fitRoundFold_spec (X oneHotM : Mat ℝ) (lr : ℝ) (nc : ℕ) (P0 : Mat ℝ)
    (ne : ℕ) :
    (List.range ne).foldl (fun acc _ => fitRoundStep X oneHotM lr nc acc) ([], P0) =
      ((List.range ne).map (fun r =>
          roundStumps X oneHotM lr (scoresBeforeRound X oneHotM lr nc P0 r) nc),
        scoresBeforeRound X oneHotM lr nc P0 ne) := by
  induction ne with
  | zero => rfl
  | succ n ih =>
    rw [List.range_succ, List.foldl_append, ih, List.foldl_cons, List.foldl_nil]
    unfold fitRoundStep
    rw [fitClassFold_spec]
    simp only [scoresBeforeRound, List.range_succ, List.map_append, List.map_cons,
      List.map_nil]

/-- **C1 amended.** In round `r` of `SimpleGradientBoosting.fit`, the stump
for class `c` is fit against `one_hot[:, c]` minus the softmax column `c` of
the raw-score matrix as already updated by classes `0..c-1` of the same
round (the softmax is recomputed inside the class loop, not snapshotted once
per round); only class 0's residual uses the round-start matrix itself. -/
theorem fit_residuals_use_updated_scores (ne nc : ℕ) (lr : ℝ) (X : Mat ℝ)
    (y : List ℕ) (r c : ℕ) (hr : r < ne) (hc : c < nc) :
    (SimpleGradientBoosting.fit ne lr nc X y).estimators.get? r =
      some (roundStumps X (oneHot nc y) lr
        (scoresBeforeRound X (oneHot nc y) lr nc
          (X.map (fun _ => colMeans (oneHot nc y) nc)) r) nc) ∧
    (roundStumps X (oneHot nc y) lr
        (scoresBeforeRound X (oneHot nc y) lr nc
          (X.map (fun _ => colMeans (oneHot nc y) nc)) r) nc).get? c =
      some (DecisionStump.fit X (residualFor (oneHot nc y)
        (partialScores X (oneHot nc y) lr
          (scoresBeforeRound X (oneHot nc y) lr nc
            (X.map (fun _ => colMeans (oneHot nc y) nc)) r) c) c)) ∧
    residualFor (oneHot nc y)
        (partialScores X (oneHot nc y) lr
          (scoresBeforeRound X (oneHot nc y) lr nc
            (X.map (fun _ => colMeans (oneHot nc y) nc)) r) 0) 0 =
      List.zipWith (fun a b => a - b) (column (oneHot nc y) 0)
        (column (softmax (scoresBeforeRound X (oneHot nc y) lr nc
          (X.map (fun _ => colMeans (oneHot nc y) nc)) r)) 0) := by
  refine ⟨?_, ?_, rfl⟩
  · show ((List.range ne).foldl
        (fun acc _ => fitRoundStep X (oneHot nc y) lr nc acc)
        ([], X.map (fun _ => colMeans (oneHot nc y) nc))).1.get? r = _
    rw [fitRoundFold_spec]
    rw [List.get?_map, List.get?_range hr]
    rfl
  · unfold roundStumps
    rw [List.get?_map, List.get?_range hc]
    rfl

/-- Witness for C1 (amended) at one round, two classes, on the concrete
4x1 example. -/
theorem fit_residuals_use_updated_scores_witness :
    ((0 : ℕ) < 1 ∧ (1 : ℕ) < 2) ∧
    ((SimpleGradientBoosting.fit 1 (1 / 10) 2 cexX cexY).estimators.get? 0 =
      some (roundStumps cexX (oneHot 2 cexY) (1 / 10)
        (scoresBeforeRound cexX (oneHot 2 cexY) (1 / 10) 2
          (cexX.map (fun _ => colMeans (oneHot 2 cexY) 2)) 0) 2) ∧
    (roundStumps cexX (oneHot 2 cexY) (1 / 10)
        (scoresBeforeRound cexX (oneHot 2 cexY) (1 / 10) 2
          (cexX.map (fun _ => colMeans (oneHot 2 cexY) 2)) 0) 2).get? 1 =
      some (DecisionStump.fit cexX (residualFor (oneHot 2 cexY)
        (partialScores cexX (oneHot 2 cexY) (1 / 10)
          (scoresBeforeRound cexX (oneHot 2 cexY) (1 / 10) 2
            (cexX.map (fun _ => colMeans (oneHot 2 cexY) 2)) 0) 1) 1)) ∧
    residualFor (oneHot 2 cexY)
        (partialScores cexX (oneHot 2 cexY) (1 / 10)
          (scoresBeforeRound cexX (oneHot 2 cexY) (1 / 10) 2
            (cexX.map (fun _ => colMeans (oneHot 2 cexY) 2)) 0) 0) 0 =
      List.zipWith (fun a b => a - b) (column (oneHot 2 cexY) 0)
        (column (softmax (scoresBeforeRound cexX (oneHot 2 cexY) (1 / 10) 2
          (cexX.map (fun _ => colMeans (oneHot 2 cexY) 2)) 0)) 0)) :=
  ⟨⟨by decide, by decide⟩,
    fit_residuals_use_updated_scores 1 2 (1 / 10) cexX cexY 0 1
      (by decide) (by decide)⟩

/-- **C1 counterexample.** On `X = [[0],[0],[1],[1]]`, `y = [0,0,1,1]` with
two classes and learning rate 1/10, the residual the fit loop uses for
class 1 of the first round differs from `one_hot[:,1]` minus the softmax
column 1 of the round-start score matrix: the class-0 update has already
shifted the scores before class 1's softmax is taken. -/
theorem fit_residual_snapshot_cex :
    residualFor (oneHot 2 cexY)
        (partialScores cexX (oneHot 2 cexY) (1 / 10)
          (cexX.map (fun _ => colMeans (oneHot 2 cexY) 2)) 1) 1 ≠
      List.zipWith (fun a b => a - b) (column (oneHot 2 cexY) 1)
        (column (softmax (cexX.map (fun _ => colMeans (oneHot 2 cexY) 2))) 1) := by
  have h_oh : oneHot 2 cexY = ([[1, 0], [1, 0], [0, 1], [0, 1]] : Mat ℝ) := by
    norm_num [oneHot, cexY, List.range_succ]
  have h_init : colMeans (oneHot 2 cexY) 2 = [(1 : ℝ) / 2, 1 / 2] := by
    rw [h_oh]
    norm_num [colMeans, column, entry, List.range_succ]
  have h_P0 : cexX.map (fun _ => colMeans (oneHot 2 cexY) 2) =
      ([[1 / 2, 1 / 2], [1 / 2, 1 / 2], [1 / 2, 1 / 2], [1 / 2, 1 / 2]] : Mat ℝ) := by
    simp only [h_init, cexX, List.map_cons, List.map_nil]
  have h_sm_half : softmaxRow [(1 : ℝ) / 2, 1 / 2] = [1 / 2, 1 / 2] := by
    have hmax : rowMax [(1 : ℝ) / 2, 1 / 2] = 1 / 2 := max_self _
    unfold softmaxRow
    rw [hmax]
    norm_num [Real.exp_zero]
  have h_smP0 : softmax ([[1 / 2, 1 / 2], [1 / 2, 1 / 2], [1 / 2, 1 / 2],
      [1 / 2, 1 / 2]] : Mat ℝ) =
      [[1 / 2, 1 / 2], [1 / 2, 1 / 2], [1 / 2, 1 / 2], [1 / 2, 1 / 2]] := by
    simp only [softmax, List.map_cons, List.map_nil, h_sm_half]
  have h_r0 : residualFor (oneHot 2 cexY)
      ([[1 / 2, 1 / 2], [1 / 2, 1 / 2], [1 / 2, 1 / 2], [1 / 2, 1 / 2]] : Mat ℝ) 0 =
      [1 / 2, 1 / 2, -(1 / 2), -(1 / 2)] := by
    unfold residualFor
    rw [h_oh, h_smP0]
    norm_num [column, entry]
  have h_col : column cexX 0 = ([0, 0, 1, 1] : List ℝ) := by
    norm_num [column, cexX, entry]
  have h_uniq : uniqueSorted (column cexX 0) = ([0, 1] : List ℝ) := by
    rw [h_col]
    norm_num [uniqueSorted, List.insertionSort, List.orderedInsert,
      List.dedup_cons_of_mem, List.dedup_cons_of_not_mem]
  have h_all : allCandidates cexX = [(0, (0 : ℝ)), (0, 1)] := by
    unfold allCandidates
    rw [show nFeatures cexX = 1 from rfl, show List.range 1 = [0] from rfl]
    rw [show ([0] : List ℕ).flatMap (fun featIdx =>
        (uniqueSorted (column cexX featIdx)).map (fun t => (featIdx, t))) =
      (uniqueSorted (column cexX 0)).map (fun t => ((0 : ℕ), t)) from by simp]
    rw [h_uniq]
    rfl
  have h_acc : accepted cexX (0, (0 : ℝ)) := by
    unfold accepted
    constructor <;>
      norm_num [leftCount, rightCount, h_col, List.filter_cons, decide_eq_true_eq]
  have h_rej : ¬ accepted cexX (0, (1 : ℝ)) := by
    intro hacc
    have h2 := hacc.2
    rw [show rightCount (column cexX (0, (1 : ℝ)).1) (0, (1 : ℝ)).2 = 0 by
      norm_num [rightCount, h_col, List.filter_cons, decide_eq_true_eq]] at h2
    omega
  have hs1 : stepCand cexX [1 / 2, 1 / 2, -(1 / 2), -(1 / 2)] none (0, (0 : ℝ)) =
      some (candGain (column cexX 0) [1 / 2, 1 / 2, -(1 / 2), -(1 / 2)] 0,
        candStump cexX [1 / 2, 1 / 2, -(1 / 2), -(1 / 2)] 0 0) := by
    unfold stepCand
    rw [if_pos h_acc]
  have hs2 : ∀ gs : ℝ × DecisionStump ℝ,
      stepCand cexX [1 / 2, 1 / 2, -(1 / 2), -(1 / 2)] (some gs) (0, (1 : ℝ)) =
        some gs := by
    intro gs
    unfold stepCand
    rw [if_neg h_rej]
  have h_stump : candStump cexX [1 / 2, 1 / 2, -(1 / 2), -(1 / 2)] 0 0 =
      ⟨0, 0, 1 / 2, -(1 / 2)⟩ := by
    norm_num [candStump, h_col, maskedMean, List.filter_cons, decide_eq_true_eq,
      DecisionStump.mk.injEq]
  have h_fit0 : DecisionStump.fit cexX [1 / 2, 1 / 2, -(1 / 2), -(1 / 2)] =
      ⟨0, 0, 1 / 2, -(1 / 2)⟩ := by
    unfold DecisionStump.fit
    rw [h_all, List.foldl_cons, hs1, List.foldl_cons, hs2, List.foldl_nil]
    exact h_stump
  have h_pred : (⟨0, 0, 1 / 2, -(1 / 2)⟩ : DecisionStump ℝ).predict cexX =
      [1 / 2, 1 / 2, -(1 / 2), -(1 / 2)] := by
    norm_num [DecisionStump.predict, cexX, entry]
  have h_P1 : partialScores cexX (oneHot 2 cexY) (1 / 10)
      ([[1 / 2, 1 / 2], [1 / 2, 1 / 2], [1 / 2, 1 / 2], [1 / 2, 1 / 2]] : Mat ℝ) 1 =
      [[11 / 20, 1 / 2], [11 / 20, 1 / 2], [9 / 20, 1 / 2], [9 / 20, 1 / 2]] := by
    show updateScores (partialScores cexX (oneHot 2 cexY) (1 / 10) _ 0) 0 (1 / 10)
        ((DecisionStump.fit cexX (residualFor (oneHot 2 cexY)
          (partialScores cexX (oneHot 2 cexY) (1 / 10) _ 0) 0)).predict cexX) = _
    rw [show partialScores cexX (oneHot 2 cexY) (1 / 10)
      ([[1 / 2, 1 / 2], [1 / 2, 1 / 2], [1 / 2, 1 / 2], [1 / 2, 1 / 2]] : Mat ℝ) 0 =
      ([[1 / 2, 1 / 2], [1 / 2, 1 / 2], [1 / 2, 1 / 2], [1 / 2, 1 / 2]] : Mat ℝ)
      from rfl]
    rw [h_r0, h_fit0, h_pred]
    norm_num [updateScores, entry, List.set]
  have hmax1 : rowMax [(11 : ℝ) / 20, 1 / 2] = 11 / 20 := by
    rw [show rowMax [(11 : ℝ) / 20, 1 / 2] = max (11 / 20) (1 / 2) from rfl]
    exact max_eq_left (by norm_num)
  have hmax2 : rowMax [(9 : ℝ) / 20, 1 / 2] = 1 / 2 := by
    rw [show rowMax [(9 : ℝ) / 20, 1 / 2] = max (9 / 20) (1 / 2) from rfl]
    exact max_eq_right (by norm_num)
  have e1 : (11 : ℝ) / 20 - 11 / 20 = 0 := by norm_num
  have e2 : (1 : ℝ) / 2 - 11 / 20 = -(1 / 20) := by norm_num
  have e3 : (9 : ℝ) / 20 - 1 / 2 = -(1 / 20) := by norm_num
  have e4 : (1 : ℝ) / 2 - 1 / 2 = 0 := by norm_num
  have h_sm1 : softmaxRow [(11 : ℝ) / 20, 1 / 2] =
      [1 / (1 + Real.exp (-(1 / 20))),
        Real.exp (-(1 / 20)) / (1 + Real.exp (-(1 / 20)))] := by
    unfold softmaxRow
    rw [hmax1]
    simp only [List.map_cons, List.map_nil, e1, e2, Real.exp_zero, List.sum_cons,
      List.sum_nil, add_zero]
  have h_sm2 : softmaxRow [(9 : ℝ) / 20, 1 / 2] =
      [Real.exp (-(1 / 20)) / (1 + Real.exp (-(1 / 20))),
        1 / (1 + Real.exp (-(1 / 20)))] := by
    unfold softmaxRow
    rw [hmax2]
    simp only [List.map_cons, List.map_nil, e3, e4, Real.exp_zero, List.sum_cons,
      List.sum_nil, add_zero]
    simp only [add_comm (Real.exp (-(1 / 20))) (1 : ℝ)]
  have h_smP1 : softmax ([[11 / 20, 1 / 2], [11 / 20, 1 / 2], [9 / 20, 1 / 2],
      [9 / 20, 1 / 2]] : Mat ℝ) =
      [[1 / (1 + Real.exp (-(1 / 20))),
          Real.exp (-(1 / 20)) / (1 + Real.exp (-(1 / 20)))],
        [1 / (1 + Real.exp (-(1 / 20))),
          Real.exp (-(1 / 20)) / (1 + Real.exp (-(1 / 20)))],
        [Real.exp (-(1 / 20)) / (1 + Real.exp (-(1 / 20))),
          1 / (1 + Real.exp (-(1 / 20)))],
        [Real.exp (-(1 / 20)) / (1 + Real.exp (-(1 / 20))),
          1 / (1 + Real.exp (-(1 / 20)))]] := by
    simp only [softmax, List.map_cons, List.map_nil, h_sm1, h_sm2]
  intro heq
  rw [h_P0, h_P1] at heq
  have hL : residualFor (oneHot 2 cexY)
      ([[11 / 20, 1 / 2], [11 / 20, 1 / 2], [9 / 20, 1 / 2], [9 / 20, 1 / 2]] : Mat ℝ)
      1 =
      [-(Real.exp (-(1 / 20)) / (1 + Real.exp (-(1 / 20)))),
        -(Real.exp (-(1 / 20)) / (1 + Real.exp (-(1 / 20)))),
        1 - 1 / (1 + Real.exp (-(1 / 20))),
        1 - 1 / (1 + Real.exp (-(1 / 20)))] := by
    unfold residualFor
    rw [h_oh, h_smP1]
    norm_num [column, entry]
  have hR : List.zipWith (fun a b => a - b) (column (oneHot 2 cexY) 1)
      (column (softmax ([[1 / 2, 1 / 2], [1 / 2, 1 / 2], [1 / 2, 1 / 2],
        [1 / 2, 1 / 2]] : Mat ℝ)) 1) =
      [-(1 / 2), -(1 / 2), 1 / 2, 1 / 2] := by
    rw [h_oh, h_smP0]
    norm_num [column, entry]
  rw [hL, hR] at heq
  have hhead := congrArg (fun l : List ℝ => l.headD 0) heq
  simp only [List.headD_cons] at hhead
  have hpos : (0 : ℝ) < 1 + Real.exp (-(1 / 20)) := by positivity
  have h2 : Real.exp (-(1 / 20 : ℝ)) / (1 + Real.exp (-(1 / 20))) = 1 / 2 :=
    neg_injective hhead
  rw [div_eq_iff (ne_of_gt hpos)] at h2
  have hE1 : Real.exp (-(1 / 20 : ℝ)) = 1 := by linarith
  have : -(1 / 20 : ℝ) = 0 := (Real.exp_eq_one_iff _).1 hE1
  norm_num at this

end DisputeSml
